import Mathlib

/-!
Verification of the expense-tracker repository (the Streamlit application
`app.py` and the menu-driven variant `Project_1.py`) against its
natural-language specification.

Modelling conventions for the shallow embedding:
* Python floats are modelled as rationals (`ℚ`); the decimal amounts the
  application reads and writes are exact rationals, so sums and comparisons
  are exact.
* CSV payloads are modelled as `String`s over `List Char`.
* Python dictionaries (the credential store, the budget map) are modelled as
  association lists in insertion order, looked up with `List.lookup`.
* `datetime` values are modelled as a record of calendar fields; parsing of
  the application's own `"%Y-%m-%d %H:%M:%S"` format is modelled by
  `parseDT`, with unparseable strings mapping to `none` (mirroring
  `pd.to_datetime` raising on malformed input).
-/

namespace ExpenseTracker

/-- Numeric value of a decimal digit character, as in parsing `'7'` to `7`. -/
def charDigit (c : Char) : ℕ := c.toNat - 48

/-- Character for a decimal digit value below ten. -/
def digitChar (d : ℕ) : Char := Char.ofNat (48 + d)

/-- Value of a digit list, most significant first. -/
def digsVal (l : List ℕ) : ℕ := l.foldl (fun a d => 10 * a + d) 0

/-- Decimal digits of a natural number, most significant first. -/
def natDigs (n : ℕ) : List ℕ :=
  if _h : n < 10 then [n]
  else natDigs (n / 10) ++ [n % 10]
decreasing_by exact Nat.div_lt_self (by omega) (by omega)

/-- Left-pad a digit list with zeros to width `w`. -/
def padDigs (w : ℕ) (l : List ℕ) : List ℕ := List.replicate (w - l.length) 0 ++ l

/-- Value of a nonempty, all-digit character list. -/
def digitsVal (l : List Char) : Option ℕ :=
  if l ≠ [] ∧ l.all Char.isDigit then some (digsVal (l.map charDigit)) else none

/-- Split a character list on a separator character, keeping empty pieces:
the model of splitting a CSV payload into lines and a line into fields. -/
def splitOnChar (sep : Char) : List Char → List (List Char)
  | [] => [[]]
  | c :: rest =>
    match splitOnChar sep rest, decide (c = sep) with
    | r, true => [] :: r
    | [], false => [[c]]
    | h :: t, false => (c :: h) :: t

/-- Parse an unsigned decimal numeral, with an optional fractional part, to
an exact rational: the model of Python `float(...)` on the decimal strings
the application reads and writes. -/
def parseUnsignedQ (l : List Char) : Option ℚ :=
  match splitOnChar '.' l with
  | [intD] => (digitsVal intD).map (fun n => (n : ℚ))
  | [intD, fracD] =>
    match digitsVal intD, digitsVal fracD with
    | some i, some f => some ((i : ℚ) + (f : ℚ) / 10 ^ fracD.length)
    | _, _ => none
  | _ => none

/-- Parse a possibly negated decimal numeral, the model of `float(...)`. -/
def parseFloatChars (l : List Char) : Option ℚ :=
  match l with
  | c :: rest => if c = '-' then (parseUnsignedQ rest).map (fun q => -q)
                 else parseUnsignedQ (c :: rest)
  | [] => none

/-- String wrapper around `parseFloatChars`. -/
def parseFloatQ (s : String) : Option ℚ := parseFloatChars s.toList

/-- An expense record: one row of a user's ledger, as stored in the
per-user CSV file with columns `Date, Category, Description, Amount`.
The amount is held as an exact rational (model of the Python float). -/
structure Rec where
  date : String
  category : String
  description : String
  amount : ℚ
deriving DecidableEq, Repr

/-- Sum of the `Amount` column, modelled as the sequential fold pandas
performs; `app.py` Analytics: `total_amt = dfm["Amount"].sum()`. -/
def amountSum (records : List Rec) : ℚ :=
  records.foldl (fun acc r => acc + r.amount) 0

/-- The Analytics summary pair of `app.py` (lines 386-389):
`st.metric("Total Spent", dfm["Amount"].sum())` and
`st.metric("Transactions", len(dfm))`. -/
def totalAndCount (records : List Rec) : ℚ × ℕ :=
  (amountSum records, records.length)

/-- One fold step of `view_total` in `Project_1.py` (lines 110-121): a raw
CSV row is counted only when it has exactly 4 fields and its amount field
parses as a float; otherwise the accumulator is unchanged. -/
def viewTotalStep (acc : ℚ × ℕ) (row : List String) : ℚ × ℕ :=
  match row with
  | [_, _, _, a] =>
    match parseFloatQ a with
    | some amount => (acc.1 + amount, acc.2 + 1)
    | none => acc
  | _ => acc

/-- The `view_total` computation of `Project_1.py`: fold the data rows
(the header row is already skipped by `next(reader)`) starting from
`total = 0, count = 0`. -/
def viewTotal (rows : List (List String)) : ℚ × ℕ :=
  rows.foldl viewTotalStep (0, 0)

/-- A raw row is well-formed when it has exactly 4 fields and its amount
field parses as a number. -/
def wellFormedRow (row : List String) : Bool :=
  match row with
  | [_, _, _, a] => (parseFloatQ a).isSome
  | _ => false

/-- Multiplicity of `p` in `n` (0 when `p < 2` or `n = 0`). -/
def multOf (p n : ℕ) : ℕ :=
  if h : 2 ≤ p ∧ p ∣ n ∧ n ≠ 0 then multOf p (n / p) + 1 else 0
termination_by n
decreasing_by
  exact Nat.div_lt_self (Nat.pos_of_ne_zero h.2.2) (by omega)

/-- Digits of the unsigned decimal `a / 10^e` with `e` places after the
point (`.0` when `e = 0`, as Python `repr` writes integral floats). -/
def unsignedDecChars (a e : ℕ) : List Char :=
  if e = 0 then (natDigs a).map digitChar ++ ['.', '0']
  else (natDigs (a / 10 ^ e)).map digitChar ++
    '.' :: (padDigs e (natDigs (a % 10 ^ e))).map digitChar

/-- Decimal character rendering of a rational with a finite decimal
expansion: the model of Python `repr(float)` on the exactly representable
decimal values the application writes (pandas `to_csv` writes the full
`repr`, with no `float_format`, so no rounding to 2 decimals happens). -/
def amountChars (q : ℚ) : List Char :=
  let e := max (multOf 2 q.den) (multOf 5 q.den)
  let m : ℤ := q.num * (10 : ℤ) ^ e / (q.den : ℤ)
  (if q.num < 0 then ['-'] else []) ++ unsignedDecChars m.natAbs e

/-- String form of an exported amount cell. -/
def formatAmount (q : ℚ) : String := ⟨amountChars q⟩

/-- The header row `to_csv` writes for the expense table. -/
def csvHeader : String := "Date,Category,Description,Amount"

/-- Whether `to_csv`'s `QUOTE_MINIMAL` writer must quote a cell: it
contains the delimiter, the quote character, or a line terminator. -/
def needsQuote (l : List Char) : Bool :=
  l.any (fun c => c = ',' ∨ c = '"' ∨ c = '\n' ∨ c = '\r')

/-- Double every quote character, the CSV escape applied inside a quoted
cell. -/
def escapeQuotes : List Char → List Char
  | [] => []
  | c :: t => if c = '"' then '"' :: '"' :: escapeQuotes t else c :: escapeQuotes t

/-- A cell as `to_csv` writes it under `QUOTE_MINIMAL`: quoted with inner
quotes doubled when it contains a delimiter, quote or newline, verbatim
otherwise. -/
def encodeField (l : List Char) : List Char :=
  if needsQuote l then '"' :: escapeQuotes l ++ ['"'] else l

/-- One exported CSV row of a record, each cell minimally quoted. -/
def csvLine (r : Rec) : String :=
  ⟨encodeField r.date.data⟩ ++ "," ++ ⟨encodeField r.category.data⟩ ++ "," ++
    ⟨encodeField r.description.data⟩ ++ "," ++ ⟨encodeField (amountChars r.amount)⟩

/-- The data rows of the exported CSV payload, one line per record, each
terminated by a newline. -/
def csvBody : List Rec → String
  | [] => ""
  | r :: t => csvLine r ++ "\n" ++ csvBody t

/-- The `export_csv_bytes` helper of `app.py` (lines 110-111):
`df.to_csv(index=False)`, a header line followed by one line per record. -/
def export_csv_bytes (L : List Rec) : String :=
  csvHeader ++ "\n" ++ csvBody L

/-- The CSV tokenizer of `pd.read_csv` on the grammar `to_csv` emits:
outside quotes a comma ends the cell and a newline ends the record; a
quote opens a quoted cell in which a doubled quote is a literal quote and
everything else (commas and newlines included) is cell content.  `field`
and `row` hold the current cell and record reversed. -/
def csvScan (inQ : Bool) (field : List Char) (row : List (List Char)) :
    List Char → List (List (List Char))
  | [] => [(field.reverse :: row).reverse]
  | c :: t =>
    if inQ then
      if c = '"' then
        match t with
        | c2 :: t2 =>
          if c2 = '"' then csvScan true ('"' :: field) row t2
          else csvScan false field row (c2 :: t2)
        | [] => csvScan false field row []
      else csvScan true (c :: field) row t
    else
      if c = ',' then csvScan false [] (field.reverse :: row) t
      else if c = '\n' then (field.reverse :: row).reverse :: csvScan false [] [] t
      else if c = '"' then csvScan true field row t
      else csvScan false (c :: field) row t
termination_by l => l.length
decreasing_by all_goals simp_arith

/-- The records of a payload as `pd.read_csv` sees them: tokenize, then
drop blank lines (`skip_blank_lines=True`). -/
def csvRows (s : String) : List (List (List Char)) :=
  (csvScan false [] [] s.data).filter (fun row => row ≠ [[]])

/-- The default NA sentinels of `pd.read_csv`: a cell spelled exactly like
one of these reads back as missing (NaN), not as a string. -/
def naStrings : List String :=
  ["", "#N/A", "#N/A N/A", "#NA", "-1.#IND", "-1.#QNAN", "-NaN", "-nan",
   "1.#IND", "1.#QNAN", "<NA>", "N/A", "NA", "NULL", "NaN", "None", "n/a", "nan", "null"]

/-- A string cell as `pd.read_csv` materializes it: `none` (NaN) for an NA
sentinel — in particular for an empty cell — and the verbatim string
otherwise. -/
def readCell (l : List Char) : Option String :=
  if (⟨l⟩ : String) ∈ naStrings then none else some ⟨l⟩

/-- A ledger row as it comes back from `pd.read_csv` in `load_expenses`:
the three string columns may be missing (NaN), and the `Amount` column is
coerced to a number with fallback 0
(`pd.to_numeric(..., errors="coerce").fillna(0)`). -/
structure ReadRow where
  date : Option String
  category : Option String
  description : Option String
  amount : ℚ
deriving DecidableEq, Repr

/-- Parse one tokenized CSV data record back into a `ReadRow`. -/
def parseCSVrow (row : List (List Char)) : Option ReadRow :=
  match row with
  | [d, c, ds, a] => some ⟨readCell d, readCell c, readCell ds, (parseFloatChars a).getD 0⟩
  | _ => none

/-- Re-parse a CSV payload: tokenize into records, drop the header record,
read each data record. -/
def parseCSV (s : String) : List ReadRow :=
  match csvRows s with
  | [] => []
  | _header :: rest => rest.filterMap parseCSVrow

/-- How a stored record looks after a round trip through `read_csv` when
none of its string fields is an NA sentinel: every cell comes back
verbatim. -/
def asRead (r : Rec) : ReadRow := ⟨some r.date, some r.category, some r.description, r.amount⟩

/-! SHA-256, the hash `hash_password` applies:
`hashlib.sha256(password.encode("utf-8")).hexdigest()`.  Words are naturals
reduced mod `2^32`. -/

/-- Reduce to a 32-bit word. -/
def w32 (n : ℕ) : ℕ := n % 4294967296

/-- Rotate a 32-bit word right by `n`. -/
def rotr32 (n x : ℕ) : ℕ := w32 ((x >>> n) ||| (x <<< (32 - n)))

/-- SHA-256 choice function `Ch(x,y,z)`. -/
def chF (x y z : ℕ) : ℕ := (x &&& y) ^^^ ((x ^^^ 4294967295) &&& z)

/-- SHA-256 majority function `Maj(x,y,z)`. -/
def majF (x y z : ℕ) : ℕ := ((x &&& y) ^^^ (x &&& z)) ^^^ (y &&& z)

/-- SHA-256 `Σ0`. -/
def bigS0 (x : ℕ) : ℕ := (rotr32 2 x) ^^^ (rotr32 13 x) ^^^ (rotr32 22 x)

/-- SHA-256 `Σ1`. -/
def bigS1 (x : ℕ) : ℕ := (rotr32 6 x) ^^^ (rotr32 11 x) ^^^ (rotr32 25 x)

/-- SHA-256 `σ0`. -/
def smallS0 (x : ℕ) : ℕ := (rotr32 7 x) ^^^ (rotr32 18 x) ^^^ (x >>> 3)

/-- SHA-256 `σ1`. -/
def smallS1 (x : ℕ) : ℕ := (rotr32 17 x) ^^^ (rotr32 19 x) ^^^ (x >>> 10)

/-- The 64 SHA-256 round constants. -/
def sha256K : List ℕ :=
  [1116352408, 1899447441, 3049323471, 3921009573,
   961987163, 1508970993, 2453635748, 2870763221,
   3624381080, 310598401, 607225278, 1426881987,
   1925078388, 2162078206, 2614888103, 3248222580,
   3835390401, 4022224774, 264347078, 604807628,
   770255983, 1249150122, 1555081692, 1996064986,
   2554220882, 2821834349, 2952996808, 3210313671,
   3336571891, 3584528711, 113926993, 338241895,
   666307205, 773529912, 1294757372, 1396182291,
   1695183700, 1986661051, 2177026350, 2456956037,
   2730485921, 2820302411, 3259730800, 3345764771,
   3516065817, 3600352804, 4094571909, 275423344,
   430227734, 506948616, 659060556, 883997877,
   958139571, 1322822218, 1537002063, 1747873779,
   1955562222, 2024104815, 2227730452, 2361852424,
   2428436474, 2756734187, 3204031479, 3329325298]

/-- The initial SHA-256 state. -/
def sha256H0 : List ℕ :=
  [1779033703, 3144134277, 1013904242, 2773480762,
   1359893119, 2600822924, 528734635, 1541459225]

/-- SHA-256 padding: `0x80`, zeros, then the 64-bit big-endian bit length,
to a multiple of 64 bytes. -/
def padMessage (msg : List ℕ) : List ℕ :=
  let len := msg.length
  let zeros := (119 - len % 64) % 64
  let bitLen := 8 * len
  msg ++ [0x80] ++ List.replicate zeros 0 ++
    ((List.range 8).map (fun i => (bitLen >>> (8 * (7 - i))) % 256))

/-- Split a byte list into 64-byte chunks. -/
def chunks64 (l : List ℕ) : List (List ℕ) :=
  if h : l = [] then []
  else l.take 64 :: chunks64 (l.drop 64)
termination_by l.length
decreasing_by
  have hp : 0 < l.length := List.length_pos.mpr h
  simp [List.length_drop]
  omega

/-- Combine big-endian groups of 4 bytes into 32-bit words. -/
def bytesToWords : List ℕ → List ℕ
  | b0 :: b1 :: b2 :: b3 :: rest =>
    (((b0 * 256 + b1) * 256 + b2) * 256 + b3) :: bytesToWords rest
  | _ => []

/-- Extend the 16-word message schedule by `k` further words. -/
def extendWords (w : List ℕ) : ℕ → List ℕ
  | 0 => w
  | k + 1 =>
    let i := w.length
    extendWords (w ++ [w32 (smallS1 (w.getD (i - 2) 0) + w.getD (i - 7) 0 +
      smallS0 (w.getD (i - 15) 0) + w.getD (i - 16) 0)]) k

/-- One SHA-256 compression round on the 8-word working state. -/
def compressStep (s : List ℕ) (kw : ℕ × ℕ) : List ℕ :=
  match s with
  | [a, b, c, d, e, f, g, h] =>
    let t1 := w32 (h + bigS1 e + chF e f g + kw.1 + kw.2)
    let t2 := w32 (bigS0 a + majF a b c)
    [w32 (t1 + t2), a, b, c, w32 (d + t1), e, f, g]
  | s => s

/-- Process one 64-byte chunk: 64 compression rounds, then add the result
into the running state. -/
def processChunk (hst : List ℕ) (chunk : List ℕ) : List ℕ :=
  let w := extendWords (bytesToWords chunk) 48
  let s := (sha256K.zip w).foldl compressStep hst
  (hst.zip s).map (fun p => w32 (p.1 + p.2))

/-- SHA-256 of a byte list, as eight 32-bit words. -/
def sha256Words (msg : List ℕ) : List ℕ :=
  (chunks64 (padMessage msg)).foldl processChunk sha256H0

/-- Lower-case hexadecimal digit character. -/
def hexChar (d : ℕ) : Char := if d < 10 then Char.ofNat (48 + d) else Char.ofNat (87 + d)

/-- Eight hex digits of a 32-bit word, most significant first. -/
def wordHex (x : ℕ) : List Char := (List.range 8).map (fun i => hexChar ((x >>> (4 * (7 - i))) % 16))

/-- Hex digest of the SHA-256 of a byte list. -/
def sha256Hex (msg : List ℕ) : String := ⟨((sha256Words msg).map wordHex).flatten⟩

/-- The `hash_password` helper of `app.py` (lines 23-24):
`hashlib.sha256(password.encode("utf-8")).hexdigest()`.  Note there is no
salt: the digest depends on the password alone. -/
def hash_password (password : String) : String :=
  sha256Hex (password.toUTF8.toList.map UInt8.toNat)

/-- The Sign-up handler of `app.py` (lines 181-190): reject an empty
username or password, reject an existing username, otherwise store
`{"password": hash_password(new_pass)}` under the new username.  The
credential store is the `users.json` dictionary as an association list in
insertion order. -/
def signup (users : List (String × String)) (u p : String) : List (String × String) :=
  if u = "" ∨ p = "" then users
  else if (users.lookup u).isSome then users
  else users ++ [(u, hash_password p)]

/-- A `datetime` value as the application uses it: calendar fields only. -/
structure PyDateTime where
  year : ℕ
  month : ℕ
  day : ℕ
  hour : ℕ
  minute : ℕ
  second : ℕ
deriving DecidableEq, Repr

/-- Parse the application's own timestamp format `"%Y-%m-%d %H:%M:%S"`,
the model of `pd.to_datetime` on a ledger date cell: `none` models the
exception raised on a malformed timestamp. -/
def parseDT (s : String) : Option PyDateTime := do
  let [d, t] := splitOnChar ' ' s.toList | none
  let [y, mo, dy] := splitOnChar '-' d | none
  let [h, mi, se] := splitOnChar ':' t | none
  let yv ← digitsVal y
  let mov ← digitsVal mo
  let dyv ← digitsVal dy
  let hv ← digitsVal h
  let miv ← digitsVal mi
  let sev ← digitsVal se
  if 1 ≤ mov ∧ mov ≤ 12 ∧ 1 ≤ dyv ∧ dyv ≤ 31 ∧ hv ≤ 23 ∧ miv ≤ 59 ∧ sev ≤ 59 then
    some ⟨yv, mov, dyv, hv, miv, sev⟩
  else none

/-- Render a natural number zero-padded to width `w`. -/
def padNatStr (w n : ℕ) : String := ⟨(padDigs w (natDigs n)).map digitChar⟩

/-- Render a timestamp in the application's `DATE_FMT`
`"%Y-%m-%d %H:%M:%S"`, as `datetime.now().strftime(DATE_FMT)` does. -/
def formatDT (t : PyDateTime) : String :=
  padNatStr 4 t.year ++ "-" ++ padNatStr 2 t.month ++ "-" ++ padNatStr 2 t.day ++ " " ++
    padNatStr 2 t.hour ++ ":" ++ padNatStr 2 t.minute ++ ":" ++ padNatStr 2 t.second

/-- Parse every ledger date, pairing each record with its timestamp: the
model of `df["Date_dt"] = pd.to_datetime(df["Date"])`, which fails as a
whole (`none`) as soon as one cell is malformed. -/
def parsedLedger : List Rec → Option (List (PyDateTime × Rec))
  | [] => some []
  | r :: t =>
    match parseDT r.date, parsedLedger t with
    | some dt, some rows => some ((dt, r) :: rows)
    | _, _ => none

/-- The `budget_check` function of `app.py` (lines 92-107), evaluated at the
instant `now`.  It returns `none` when no budget exists for the category or
when a ledger date cannot be parsed; otherwise the triple
`(exceeded, currentMonthTotal, limit)`.  Note the month filter compares
`df["Date_dt"].dt.month == datetime.now().month`: the month-of-year number
only, with no year component. -/
def budget_check (now : PyDateTime) (budgets : List (String × ℚ)) (ledger : List Rec)
    (category : String) : Option (Bool × ℚ × ℚ) :=
  if budgets = [] ∨ budgets.lookup category = none then none
  else
    match budgets.lookup category with
    | none => none
    | some budget_val =>
      match parsedLedger ledger with
      | none => none
      | some rows =>
        let month_sum :=
          ((rows.filter (fun p => p.1.month == now.month && p.2.category == category)).map
            (fun p => p.2.amount)).sum
        some (decide (month_sum > budget_val), month_sum, budget_val)

/-- The `add_expense` function of `app.py` (lines 82-90): append a record
timestamped `now` to the ledger, then run `budget_check` on the new ledger
and return the warning triple alongside the new ledger. -/
def add_expense (now : PyDateTime) (budgets : List (String × ℚ)) (ledger : List Rec)
    (category description : String) (amount : ℚ) :
    List Rec × Option (Bool × ℚ × ℚ) :=
  let newLedger := ledger ++ [⟨formatDT now, category, description, amount⟩]
  (newLedger, budget_check now budgets newLedger category)

/-- The Add-Expense handler of `app.py` (lines 313-317): an amount `≤ 0` is
rejected with an error message and nothing is written; otherwise
`add_expense` runs. -/
def addExpenseAction (now : PyDateTime) (budgets : List (String × ℚ)) (ledger : List Rec)
    (category description : String) (amount : ℚ) :
    List Rec × Option (Bool × ℚ × ℚ) :=
  if amount ≤ 0 then (ledger, none)
  else add_expense now budgets ledger category description amount

/-- The per-user persistent state of the application: each username's
expense ledger (CSV file) and budget map (JSON file). -/
structure AppState where
  ledgers : String → List Rec
  budgets : String → List (String × ℚ)

/-- The Settings delete-my-data handler of `app.py` (lines 457-459): the
user's expense file is overwritten with the empty header-only table; the
budget file is not touched. -/
def clearUserData (u : String) (s : AppState) : AppState :=
  { s with ledgers := fun v => if v = u then [] else s.ledgers v }

/-- The ledger `load_expenses` returns for a user in state `s`. -/
def load_expenses (u : String) (s : AppState) : List Rec := s.ledgers u

/-- The budget map `load_budgets` returns for a user in state `s`. -/
def load_budgets (u : String) (s : AppState) : List (String × ℚ) := s.budgets u

/-- The Admin-Login handler of `app.py` (lines 207-216): if either secret
is missing (`None`) the login is rejected outright; otherwise it succeeds
exactly when both submitted values equal the configured ones. -/
def adminLoginOk (adminUser adminPass : Option String) (u p : String) : Bool :=
  if adminUser = none ∨ adminPass = none then false
  else
    match adminUser, adminPass with
    | some au, some ap => u == au && p == ap
    | _, _ => false

/-- Whether a record's timestamp parses and has month-of-year `m`: the
month predicate `budget_check` actually applies (no year component). -/
def monthIs (m : ℕ) (r : Rec) : Bool :=
  match parseDT r.date with
  | some dt => dt.month == m
  | none => false

/-- Sum of the amounts of the ledger records whose month-of-year is `m` and
whose category equals `c` exactly: the total `budget_check` computes. -/
def monthCatSum (m : ℕ) (c : String) (L : List Rec) : ℚ :=
  ((L.filter (fun r => monthIs m r && r.category == c)).map Rec.amount).sum

/-- The calendar-month total the specification describes: sum of the
amounts of the records whose timestamp has the same year AND month as the
evaluation instant and whose category matches exactly. -/
def specMonthTotal (now : PyDateTime) (c : String) (L : List Rec) : ℚ :=
  ((L.filter (fun r =>
    match parseDT r.date with
    | some dt => dt.year == now.year && dt.month == now.month && r.category == c
    | none => false)).map Rec.amount).sum

/-! Helper lemmas for the aggregation claims. -/

theorem foldl_amountSum (l : List Rec) (a : ℚ) :
    l.foldl (fun acc r => acc + r.amount) a = a + (l.map Rec.amount).sum := by
  induction l generalizing a with
  | nil => simp
  | cons r t ih => simp [List.foldl, ih, add_assoc]

theorem viewTotalStep_not_wellFormed (acc : ℚ × ℕ) (row : List String)
    (h : wellFormedRow row = false) : viewTotalStep acc row = acc := by
  rcases row with _ | ⟨x1, _ | ⟨x2, _ | ⟨x3, _ | ⟨x4, _ | ⟨x5, t⟩⟩⟩⟩⟩ <;>
    simp only [viewTotalStep, wellFormedRow] at h ⊢
  rcases hp : parseFloatQ x4 with _ | q
  · rfl
  · rw [hp] at h; simp at h

theorem viewTotal_foldl_filter (rows : List (List String)) (acc : ℚ × ℕ) :
    rows.foldl viewTotalStep acc = (rows.filter wellFormedRow).foldl viewTotalStep acc := by
  induction rows generalizing acc with
  | nil => rfl
  | cons r t ih =>
    by_cases h : wellFormedRow r
    · simp [List.filter, h, List.foldl, ih]
    · rw [List.foldl, viewTotalStep_not_wellFormed acc r (by simpa using h)]
      simp only [List.filter, Bool.not_eq_true] at *
      rw [h, ih]

theorem viewTotal_count_wf (rows : List (List String)) (acc : ℚ × ℕ)
    (h : ∀ r ∈ rows, wellFormedRow r = true) :
    (rows.foldl viewTotalStep acc).2 = acc.2 + rows.length := by
  induction rows generalizing acc with
  | nil => simp
  | cons r t ih =>
    have hr : wellFormedRow r = true := h r (List.mem_cons_self r t)
    rw [List.foldl, ih _ (fun rr hm => h rr (List.mem_cons_of_mem _ hm))]
    suffices hstep : (viewTotalStep acc r).2 = acc.2 + 1 by
      rw [hstep, List.length_cons]; omega
    rcases r with _ | ⟨x1, _ | ⟨x2, _ | ⟨x3, _ | ⟨x4, _ | ⟨x5, tl⟩⟩⟩⟩⟩ <;>
        simp only [wellFormedRow] at hr <;>
      first
      | exact absurd hr Bool.false_ne_true
      | rcases hp : parseFloatQ x4 with _ | q
        · rw [hp] at hr; simp at hr
        · simp [viewTotalStep, hp]

/-- C9: `totalAndCount` (the Analytics summary of `app.py`) returns the sum
of the records' amounts paired with the number of records; it is `(0, 0)` on
the empty sequence and `(35.5, 3)` on records with amounts 10, 20.5, 5. -/
theorem totalAndCount_correct :
    totalAndCount [] = (0, 0) ∧
    totalAndCount
      [⟨"2025-01-01 10:00:00", "Food", "a", 10⟩,
       ⟨"2025-01-02 10:00:00", "Transport", "b", 20.5⟩,
       ⟨"2025-01-03 10:00:00", "Other", "c", 5⟩] = (35.5, 3) ∧
    ∀ records : List Rec,
      totalAndCount records = ((records.map Rec.amount).sum, records.length) := by
  refine ⟨rfl, ?_, ?_⟩
  · simp only [totalAndCount, amountSum, foldl_amountSum]
    norm_num
  · intro records
    simp only [totalAndCount, amountSum, foldl_amountSum, zero_add]

/-- C10: in `view_total` of `Project_1.py`, every stored row that does not
have exactly 4 fields or whose amount field does not parse as a number is
excluded from both the total and the transaction count: the fold equals the
fold over the well-formed rows only, and the reported count equals the
number of well-formed rows. -/
theorem viewTotal_skips_malformed (rows : List (List String)) :
    viewTotal rows = viewTotal (rows.filter wellFormedRow) ∧
    (viewTotal rows).2 = (rows.filter wellFormedRow).length := by
  constructor
  · exact viewTotal_foldl_filter rows (0, 0)
  · rw [viewTotal, viewTotal_foldl_filter rows (0, 0)]
    rw [viewTotal_count_wf _ _ (fun r hm => (List.mem_filter.mp hm).2)]
    omega

/-- C3: an attempted expense with amount `≤ 0` is rejected by the
Add-Expense handler and the user's ledger is unchanged: same records, hence
same length. -/
theorem addExpense_rejects_nonpositive (now : PyDateTime) (budgets : List (String × ℚ))
    (ledger : List Rec) (category description : String) (amount : ℚ)
    (h : amount ≤ 0) :
    (addExpenseAction now budgets ledger category description amount).1 = ledger ∧
    (addExpenseAction now budgets ledger category description amount).1.length =
      ledger.length := by
  simp [addExpenseAction, if_pos h]

/-- Witness for C3 at a concrete non-positive amount. -/
theorem addExpense_rejects_nonpositive_witness :
    (addExpenseAction ⟨2025, 11, 9, 12, 0, 0⟩ [] [⟨"2025-11-01 08:00:00", "Food", "tea", 5⟩]
      "Food" "refund" (-5)).1 = [⟨"2025-11-01 08:00:00", "Food", "tea", 5⟩] :=
  (addExpense_rejects_nonpositive ⟨2025, 11, 9, 12, 0, 0⟩ []
    [⟨"2025-11-01 08:00:00", "Food", "tea", 5⟩] "Food" "refund" (-5) (by norm_num)).1

/-- C7: clearing a user's data (the Settings delete-my-data handler)
followed by `load_expenses` yields the empty sequence, and every user's
budget map — in particular the cleared user's — is exactly as before. -/
theorem clear_then_load_empty_budgets_unchanged (u : String) (s : AppState) :
    load_expenses u (clearUserData u s) = [] ∧
    ∀ v, load_budgets v (clearUserData u s) = load_budgets v s := by
  refine ⟨?_, fun v => rfl⟩
  simp [load_expenses, clearUserData]

/-- C8: admin login fails closed when either configured secret is absent,
and with both secrets configured it succeeds exactly when the submitted
username and password both match the configured values. -/
theorem adminLogin_fail_closed_exact_match (aU aP : Option String) (u p : String) :
    ((aU = none ∨ aP = none) → adminLoginOk aU aP u p = false) ∧
    (∀ au ap, aU = some au → aP = some ap →
      (adminLoginOk aU aP u p = true ↔ u = au ∧ p = ap)) := by
  constructor
  · intro h
    rcases h with h | h <;> subst h <;> simp [adminLoginOk]
  · rintro au ap rfl rfl
    simp [adminLoginOk]

/-- Witness for C8: a rejected login with missing configuration and an
accepted login with matching configured credentials. -/
theorem adminLogin_witness :
    adminLoginOk none (some "pw") "a" "b" = false ∧
    adminLoginOk (some "root") (some "pw") "root" "pw" = true :=
  ⟨(adminLogin_fail_closed_exact_match none (some "pw") "a" "b").1 (Or.inl rfl),
   ((adminLogin_fail_closed_exact_match (some "root") (some "pw") "root" "pw").2
     "root" "pw" rfl rfl).mpr ⟨rfl, rfl⟩⟩

/-! Lemmas about `parsedLedger` and `budget_check`. -/

theorem parsedLedger_nil : parsedLedger [] = some [] := rfl

theorem parsedLedger_cons (r : Rec) (t : List Rec) :
    parsedLedger (r :: t) =
      (parseDT r.date).bind
        (fun dt => (parsedLedger t).map (fun rows => (dt, r) :: rows)) := by
  rcases h : parseDT r.date with _ | dt <;>
    rcases ht : parsedLedger t with _ | rows <;>
      simp [parsedLedger, h, ht]

theorem parsedLedger_none_iff (L : List Rec) :
    parsedLedger L = none ↔ ∃ r ∈ L, parseDT r.date = none := by
  induction L with
  | nil => simp [parsedLedger_nil]
  | cons r t ih =>
    rw [parsedLedger_cons]
    rcases h : parseDT r.date with _ | dt
    · simp [h]
    · rcases ht : parsedLedger t with _ | rows <;> simp [h, ht, ← ih]

theorem monthCatSum_cons (m : ℕ) (c : String) (r : Rec) (t : List Rec) :
    monthCatSum m c (r :: t) =
      (if (monthIs m r && r.category == c) = true then r.amount else 0) +
        monthCatSum m c t := by
  simp only [monthCatSum, List.filter_cons]
  by_cases hc : (monthIs m r && r.category == c) = true
  · simp [hc]
  · simp [hc]

theorem parsedLedger_filter_sum (m : ℕ) (c : String) (L : List Rec)
    (rows : List (PyDateTime × Rec)) (h : parsedLedger L = some rows) :
    ((rows.filter (fun p => p.1.month == m && p.2.category == c)).map
      (fun p => p.2.amount)).sum = monthCatSum m c L := by
  induction L generalizing rows with
  | nil =>
    rw [parsedLedger_nil] at h
    cases h
    simp [monthCatSum]
  | cons r t ih =>
    rcases hr : parseDT r.date with _ | dt <;>
      rcases ht : parsedLedger t with _ | rws <;>
        simp only [parsedLedger, hr, ht, Option.some.injEq, reduceCtorEq] at h
    subst h
    have hm : monthIs m r = (dt.month == m) := by simp [monthIs, hr]
    rw [monthCatSum_cons, ← ih rws ht]
    simp only [List.filter_cons, hm]
    by_cases hc : (dt.month == m && r.category == c) = true
    · simp [hc]
    · simp [hc]

/-- C1 (amended): for a category with a budget entry, on a ledger whose
timestamps all parse, `budget_check` returns `currentMonthTotal` equal to
the sum of the amounts of exactly those records whose timestamp has the
same month-of-year as the evaluation instant — the year is ignored — and
whose category equals the queried one exactly (case-sensitive), with
`exceeded` true iff that total strictly exceeds the limit. -/
theorem budget_check_month_of_year (now : PyDateTime) (budgets : List (String × ℚ))
    (ledger : List Rec) (category : String) (lim : ℚ)
    (hb : budgets.lookup category = some lim)
    (hp : ∀ r ∈ ledger, (parseDT r.date).isSome) :
    ∃ e : Bool,
      budget_check now budgets ledger category =
        some (e, monthCatSum now.month category ledger, lim) ∧
      (e = true ↔ monthCatSum now.month category ledger > lim) := by
  have hne : budgets ≠ [] := by
    rintro rfl
    simp [List.lookup] at hb
  rcases hl : parsedLedger ledger with _ | rows
  · rw [parsedLedger_none_iff] at hl
    obtain ⟨r, hrm, hrn⟩ := hl
    have := hp r hrm
    rw [hrn] at this
    simp at this
  · refine ⟨decide (monthCatSum now.month category ledger > lim), ?_, by simp⟩
    unfold budget_check
    rw [if_neg (by simp [hne, hb]), hb, hl]
    dsimp only
    rw [parsedLedger_filter_sum now.month category ledger rows hl]

/-- Witness for C1 at a concrete instant, budget and ledger: a November
2025 Food expense of 120 against a Food budget of 100 is reported as
exceeded with a current-month total of 120. -/
theorem budget_check_month_of_year_witness :
    budget_check ⟨2025, 11, 9, 12, 0, 0⟩ [("Food", 100)]
      [⟨"2025-11-05 10:00:00", "Food", "lunch", 120⟩] "Food" =
      some (true, 120, 100) := by
  have hparse : parseDT "2025-11-05 10:00:00" = some ⟨2025, 11, 5, 10, 0, 0⟩ := by
    decide
  obtain ⟨e, he, hiff⟩ := budget_check_month_of_year ⟨2025, 11, 9, 12, 0, 0⟩
    [("Food", 100)] [⟨"2025-11-05 10:00:00", "Food", "lunch", 120⟩] "Food" 100
    rfl (by simp [hparse])
  have hsum : monthCatSum (11 : ℕ) "Food"
      [⟨"2025-11-05 10:00:00", "Food", "lunch", 120⟩] = 120 := by
    simp [monthCatSum, monthIs, hparse]
  dsimp only at he hiff
  rw [hsum] at he hiff
  have he' : e = true := hiff.mpr (by norm_num)
  rw [he'] at he
  exact he

/-- Counterexample for C1 as stated: the code compares only the
month-of-year, so an expense from November 2024 counts toward the November
2025 total, while the specified same-year-and-month total of that ledger is
0 — yet `budget_check` reports 50. -/
theorem budget_check_ignores_year_cex :
    budget_check ⟨2025, 11, 9, 12, 0, 0⟩ [("Food", 100)]
      [⟨"2024-11-05 10:00:00", "Food", "old", 50⟩] "Food" =
      some (false, 50, 100) ∧
    specMonthTotal ⟨2025, 11, 9, 12, 0, 0⟩ "Food"
      [⟨"2024-11-05 10:00:00", "Food", "old", 50⟩] = 0 ∧
    (50 : ℚ) ≠ 0 := by
  have hparse : parseDT "2024-11-05 10:00:00" = some ⟨2024, 11, 5, 10, 0, 0⟩ := by
    decide
  refine ⟨?_, ?_, by norm_num⟩
  · simp only [budget_check, parsedLedger, hparse, List.lookup]
    norm_num
    simp
  · simp [specMonthTotal, hparse]

/-- C4 (amended): `budget_check` returns absent exactly when either the
budget map has no entry for the category or some ledger timestamp fails to
parse; when an entry exists and every timestamp parses, it returns the
triple with that entry as the limit. -/
theorem budget_check_absent_iff (now : PyDateTime) (budgets : List (String × ℚ))
    (ledger : List Rec) (category : String) :
    (budget_check now budgets ledger category = none ↔
      budgets.lookup category = none ∨ ∃ r ∈ ledger, parseDT r.date = none) ∧
    (∀ lim, budgets.lookup category = some lim →
      (∀ r ∈ ledger, (parseDT r.date).isSome) →
      ∃ e t, budget_check now budgets ledger category = some (e, t, lim)) := by
  constructor
  · rcases hl : budgets.lookup category with _ | lim
    · simp [budget_check, hl]
    · have hne : budgets ≠ [] := by
        rintro rfl
        simp [List.lookup] at hl
      rw [budget_check, if_neg (by simp [hne, hl]), hl, ← parsedLedger_none_iff]
      rcases hp : parsedLedger ledger with _ | rows <;> simp [hl]
  · intro lim hb hp
    obtain ⟨e, he, _⟩ := budget_check_month_of_year now budgets ledger category lim hb hp
    exact ⟨e, monthCatSum now.month category ledger, he⟩

/-- Witness for C4: absent on an empty budget map, present with the
configured limit when the entry exists and the ledger parses. -/
theorem budget_check_absent_iff_witness :
    budget_check ⟨2025, 11, 9, 12, 0, 0⟩ [] [] "Food" = none ∧
    ∃ e t, budget_check ⟨2025, 11, 9, 12, 0, 0⟩ [("Food", 100)] [] "Food" =
      some (e, t, 100) :=
  ⟨(budget_check_absent_iff ⟨2025, 11, 9, 12, 0, 0⟩ [] [] "Food").1.mpr
      (Or.inl rfl),
   (budget_check_absent_iff ⟨2025, 11, 9, 12, 0, 0⟩ [("Food", 100)] [] "Food").2
      100 rfl (by simp)⟩

/-- Counterexample for C4 as stated: a budget entry for `Food` exists, yet
`budget_check` returns absent because a ledger timestamp is unparseable —
the result is not independent of the ledger's contents. -/
theorem budget_check_absent_despite_entry_cex :
    ([("Food", (100 : ℚ))]).lookup "Food" = some 100 ∧
    budget_check ⟨2025, 11, 9, 12, 0, 0⟩ [("Food", 100)]
      [⟨"garbage", "Food", "x", 10⟩] "Food" = none := by
  have hg : parseDT "garbage" = none := by decide
  refine ⟨rfl, ?_⟩
  simp [budget_check, parsedLedger, hg, List.lookup]

/-! Lemmas about the credential store. -/

theorem lookup_append_of_none {β : Type} (a : String) (l1 l2 : List (String × β))
    (h : l1.lookup a = none) : (l1 ++ l2).lookup a = l2.lookup a := by
  induction l1 with
  | nil => rfl
  | cons x t ih =>
    rcases x with ⟨k, v⟩
    by_cases hk : (a == k) = true
    · simp [List.lookup, hk] at h
    · rw [Bool.not_eq_true] at hk
      simp only [List.cons_append, List.lookup, hk] at h ⊢
      exact ih h

/-- C2 (amended): `hash_password` is the unsalted SHA-256 of the password
alone, so when two distinct usernames sign up with the same password the
credential store holds the SAME hash for both of them. -/
theorem signup_same_password_same_hash (users : List (String × String))
    (u1 u2 p : String) (h12 : u1 ≠ u2) (h1 : u1 ≠ "") (h2 : u2 ≠ "") (hp : p ≠ "")
    (hl1 : users.lookup u1 = none) (hl2 : users.lookup u2 = none) :
    (signup (signup users u1 p) u2 p).lookup u1 = some (hash_password p) ∧
    (signup (signup users u1 p) u2 p).lookup u2 = some (hash_password p) := by
  have h21 : (u2 == u1) = false := beq_eq_false_iff_ne.mpr (Ne.symm h12)
  have h11 : (u1 == u1) = true := beq_self_eq_true u1
  have h22 : (u2 == u2) = true := beq_self_eq_true u2
  have hs1 : signup users u1 p = users ++ [(u1, hash_password p)] := by
    rw [signup, if_neg (by simp [h1, hp]), if_neg (by simp [hl1])]
  have hl2' : (signup users u1 p).lookup u2 = none := by
    rw [hs1, lookup_append_of_none u2 users _ hl2]
    simp [List.lookup, h21]
  have hs2 : signup (signup users u1 p) u2 p =
      users ++ [(u1, hash_password p)] ++ [(u2, hash_password p)] := by
    rw [signup, if_neg (by simp [h2, hp]), if_neg (by simp [hl2']), hs1]
  rw [hs2, List.append_assoc]
  constructor
  · rw [lookup_append_of_none u1 users _ hl1]
    simp [List.lookup, h11]
  · rw [lookup_append_of_none u2 users _ hl2]
    simp [List.lookup, h21, h22]

/-- Witness for C2 at concrete users `alice` and `bob` with password
`pw1`: both end up stored with the identical digest. -/
theorem signup_same_password_same_hash_witness :
    (signup (signup [] "alice" "pw1") "bob" "pw1").lookup "alice" =
      some (hash_password "pw1") ∧
    (signup (signup [] "alice" "pw1") "bob" "pw1").lookup "bob" =
      some (hash_password "pw1") :=
  signup_same_password_same_hash [] "alice" "bob" "pw1" (by decide) (by decide)
    (by decide) (by decide) rfl rfl

/-- Counterexample for C2 as stated: the distinct users `alice` and `bob`
sign up with the same password and the stored hashes are equal, not
different — the hash is unsalted. -/
theorem signup_same_password_cex :
    (signup (signup [] "alice" "pw1") "bob" "pw1").lookup "alice" =
      (signup (signup [] "alice" "pw1") "bob" "pw1").lookup "bob" ∧
    ((signup (signup [] "alice" "pw1") "bob" "pw1").lookup "alice").isSome = true ∧
    "alice" ≠ "bob" := by
  refine ⟨rfl, rfl, by decide⟩

/-! Decimal digit printing and parsing lemmas. -/

theorem digsVal_shift (l : List ℕ) (a : ℕ) :
    l.foldl (fun acc d => 10 * acc + d) a = a * 10 ^ l.length + digsVal l := by
  induction l generalizing a with
  | nil => simp [digsVal]
  | cons d t ih =>
    show t.foldl _ (10 * a + d) = _
    rw [ih (10 * a + d)]
    have h2 : digsVal (d :: t) = d * 10 ^ t.length + digsVal t := by
      show t.foldl _ (10 * 0 + d) = _
      rw [ih (10 * 0 + d)]
      ring
    rw [h2, List.length_cons]
    ring

theorem digsVal_append_digit (l : List ℕ) (d : ℕ) :
    digsVal (l ++ [d]) = 10 * digsVal l + d := by
  rw [digsVal, List.foldl_append]
  rfl

theorem natDigs_val (n : ℕ) : digsVal (natDigs n) = n := by
  induction n using Nat.strong_induction_on with
  | _ n ih =>
    rw [natDigs]
    by_cases h : n < 10
    · rw [dif_pos h]
      show 10 * 0 + n = n
      omega
    · rw [dif_neg h, digsVal_append_digit, ih (n / 10) (Nat.div_lt_self (by omega) (by omega))]
      omega

theorem natDigs_lt (n : ℕ) : ∀ d ∈ natDigs n, d < 10 := by
  induction n using Nat.strong_induction_on with
  | _ n ih =>
    rw [natDigs]
    by_cases h : n < 10
    · rw [dif_pos h]
      intro d hd
      simp at hd
      omega
    · rw [dif_neg h]
      intro d hd
      rcases List.mem_append.mp hd with h1 | h2
      · exact ih (n / 10) (Nat.div_lt_self (by omega) (by omega)) d h1
      · simp at h2
        omega

theorem natDigs_ne_nil (n : ℕ) : natDigs n ≠ [] := by
  rw [natDigs]
  by_cases h : n < 10
  · rw [dif_pos h]
    simp
  · rw [dif_neg h]
    simp

theorem natDigs_length_le (n : ℕ) : ∀ k, 1 ≤ k → n < 10 ^ k → (natDigs n).length ≤ k := by
  induction n using Nat.strong_induction_on with
  | _ n ih =>
    intro k hk hnk
    rw [natDigs]
    by_cases hn : n < 10
    · rw [dif_pos hn]
      simpa using hk
    · rw [dif_neg hn, List.length_append]
      have hk2 : 2 ≤ k := by
        rcases Nat.lt_or_ge k 2 with hlt | hge
        · interval_cases k <;> omega
        · exact hge
      have hdiv : n / 10 < 10 ^ (k - 1) := by
        rw [Nat.div_lt_iff_lt_mul (by omega)]
        have : 10 ^ (k - 1) * 10 = 10 ^ k := by
          rw [← pow_succ]
          congr 1
          omega
        omega
      have hlen := ih (n / 10) (Nat.div_lt_self (by omega) (by omega)) (k - 1)
        (by omega) hdiv
      simp only [List.length_cons, List.length_nil]
      omega

theorem digitChar_props (d : ℕ) (h : d < 10) :
    charDigit (digitChar d) = d ∧ (digitChar d).isDigit = true ∧
      digitChar d ≠ ',' ∧ digitChar d ≠ '\n' ∧ digitChar d ≠ '.' ∧
      digitChar d ≠ '-' ∧ digitChar d ≠ '"' ∧ digitChar d ≠ '\r' := by
  interval_cases d <;> refine ⟨by decide, by decide, by decide, by decide, by decide,
    by decide, by decide, by decide⟩

theorem digitsVal_map_digitChar (l : List ℕ) (hne : l ≠ []) (hlt : ∀ d ∈ l, d < 10) :
    digitsVal (l.map digitChar) = some (digsVal l) := by
  rw [digitsVal, if_pos]
  · congr 1
    rw [List.map_map]
    have hcongr : l.map (charDigit ∘ digitChar) = l.map id := by
      refine List.map_congr_left ?_
      intro x hx
      exact (digitChar_props x (hlt x hx)).1
    rw [hcongr, List.map_id]
  · refine ⟨by simpa using hne, ?_⟩
    rw [List.all_eq_true]
    intro c hc
    obtain ⟨d, hd, rfl⟩ := List.mem_map.mp hc
    exact (digitChar_props d (hlt d hd)).2.1

theorem digsVal_cons_zero (l : List ℕ) : digsVal (0 :: l) = digsVal l := rfl

theorem digsVal_replicate_zero (k : ℕ) (l : List ℕ) :
    digsVal (List.replicate k 0 ++ l) = digsVal l := by
  induction k with
  | zero => rfl
  | succ k ih => rw [List.replicate_succ, List.cons_append, digsVal_cons_zero, ih]

theorem digsVal_padDigs (w : ℕ) (l : List ℕ) : digsVal (padDigs w l) = digsVal l :=
  digsVal_replicate_zero (w - l.length) l

theorem padDigs_length (w : ℕ) (l : List ℕ) : (padDigs w l).length = max w l.length := by
  rw [padDigs, List.length_append, List.length_replicate]
  omega

theorem padDigs_lt (w : ℕ) (l : List ℕ) (h : ∀ d ∈ l, d < 10) :
    ∀ d ∈ padDigs w l, d < 10 := by
  intro d hd
  rcases List.mem_append.mp hd with h1 | h2
  · have := List.eq_of_mem_replicate h1
    omega
  · exact h d h2

theorem padDigs_ne_nil (w : ℕ) (l : List ℕ) (h : l ≠ []) : padDigs w l ≠ [] := by
  rw [padDigs]
  intro hc
  rcases List.append_eq_nil.mp hc with ⟨_, h2⟩
  exact h h2

/-! Splitting lemmas. -/

theorem splitOnChar_not_mem (sep : Char) (l : List Char) (h : ∀ c ∈ l, c ≠ sep) :
    splitOnChar sep l = [l] := by
  induction l with
  | nil => rfl
  | cons c t ih =>
    have hc : decide (c = sep) = false := decide_eq_false (h c (List.mem_cons_self c t))
    rw [splitOnChar, ih (fun x hx => h x (List.mem_cons_of_mem c hx)), hc]

theorem splitOnChar_append (sep : Char) (l1 l2 : List Char) (h : ∀ c ∈ l1, c ≠ sep) :
    splitOnChar sep (l1 ++ sep :: l2) = l1 :: splitOnChar sep l2 := by
  induction l1 with
  | nil =>
    simp only [List.nil_append]
    rw [splitOnChar]
    simp
  | cons c t ih =>
    have hc : decide (c = sep) = false := decide_eq_false (h c (List.mem_cons_self c t))
    rw [List.cons_append, splitOnChar,
      ih (fun x hx => h x (List.mem_cons_of_mem c hx)), hc]

/-! Multiplicity lemmas for the decimal formatter. -/

theorem multOf_not_dvd (p n : ℕ) (h : ¬p ∣ n) : multOf p n = 0 := by
  rw [multOf, dif_neg]
  tauto

theorem multOf_mul (p n : ℕ) (hp : 2 ≤ p) (hn : n ≠ 0) :
    multOf p (p * n) = multOf p n + 1 := by
  rw [multOf, dif_pos ⟨hp, dvd_mul_right p n, Nat.mul_ne_zero (by omega) hn⟩,
    Nat.mul_div_cancel_left n (by omega)]

theorem multOf_two_pow (a b : ℕ) : multOf 2 (2 ^ a * 5 ^ b) = a := by
  induction a with
  | zero =>
    simp only [pow_zero, one_mul]
    refine multOf_not_dvd 2 (5 ^ b) ?_
    intro hdvd
    exact absurd (Nat.Prime.dvd_of_dvd_pow Nat.prime_two hdvd) (by decide)
  | succ a ih =>
    have h1 : 2 ^ (a + 1) * 5 ^ b = 2 * (2 ^ a * 5 ^ b) := by ring
    rw [h1, multOf_mul 2 _ (by omega) (by positivity), ih]

theorem multOf_five_pow (a b : ℕ) : multOf 5 (2 ^ a * 5 ^ b) = b := by
  induction b with
  | zero =>
    simp only [pow_zero, mul_one]
    refine multOf_not_dvd 5 (2 ^ a) ?_
    intro hdvd
    exact absurd (Nat.Prime.dvd_of_dvd_pow Nat.prime_five hdvd) (by decide)
  | succ b ih =>
    have h1 : 2 ^ a * 5 ^ (b + 1) = 5 * (2 ^ a * 5 ^ b) := by ring
    rw [h1, multOf_mul 5 _ (by omega) (by positivity), ih]

theorem den_dvd_ten_pow (q : ℚ) (h : ∃ a b : ℕ, q.den = 2 ^ a * 5 ^ b) :
    q.den ∣ 10 ^ max (multOf 2 q.den) (multOf 5 q.den) := by
  obtain ⟨a, b, hab⟩ := h
  rw [hab, multOf_two_pow, multOf_five_pow]
  have h10 : (10 : ℕ) ^ max a b = 2 ^ max a b * 5 ^ max a b := by
    rw [← Nat.mul_pow]
  rw [h10]
  exact Nat.mul_dvd_mul (pow_dvd_pow 2 (le_max_left a b)) (pow_dvd_pow 5 (le_max_right a b))

/-! Amount print/parse round trip. -/

theorem digitsVal_natDigs (n : ℕ) :
    digitsVal ((natDigs n).map digitChar) = some n := by
  rw [digitsVal_map_digitChar (natDigs n) (natDigs_ne_nil n) (natDigs_lt n), natDigs_val]

theorem digitChars_ne_dot (n : ℕ) : ∀ c ∈ (natDigs n).map digitChar, c ≠ '.' := by
  intro c hc
  obtain ⟨d, hd, rfl⟩ := List.mem_map.mp hc
  exact (digitChar_props d (natDigs_lt n d hd)).2.2.2.2.1

theorem parseUnsignedQ_format (a e : ℕ) :
    parseUnsignedQ (unsignedDecChars a e) = some ((a : ℚ) / 10 ^ e) := by
  by_cases he : e = 0
  · subst he
    rw [unsignedDecChars, if_pos rfl]
    have hsplit : splitOnChar '.' ((natDigs a).map digitChar ++ '.' :: ['0']) =
        ((natDigs a).map digitChar) :: splitOnChar '.' ['0'] :=
      splitOnChar_append '.' _ _ (digitChars_ne_dot a)
    have hsplit0 : splitOnChar '.' ['0'] = [['0']] :=
      splitOnChar_not_mem '.' ['0'] (by decide)
    show parseUnsignedQ ((natDigs a).map digitChar ++ '.' :: ['0']) = _
    have h0 : digitsVal ['0'] = some 0 := by decide
    rw [parseUnsignedQ, hsplit, hsplit0]
    simp only [digitsVal_natDigs, h0, List.length_cons, List.length_nil, Option.some.injEq]
    norm_num
  · rw [unsignedDecChars, if_neg he]
    have he1 : 1 ≤ e := by omega
    have hfrac_lt : a % 10 ^ e < 10 ^ e := Nat.mod_lt a (by positivity)
    have hpadne : (padDigs e (natDigs (a % 10 ^ e))).map digitChar ≠ [] := by
      simp only [ne_eq, List.map_eq_nil]
      exact padDigs_ne_nil e _ (natDigs_ne_nil _)
    have hpadlt : ∀ d ∈ padDigs e (natDigs (a % 10 ^ e)), d < 10 :=
      padDigs_lt e _ (natDigs_lt _)
    have hsplit : splitOnChar '.' ((natDigs (a / 10 ^ e)).map digitChar ++
        '.' :: (padDigs e (natDigs (a % 10 ^ e))).map digitChar) =
        ((natDigs (a / 10 ^ e)).map digitChar) ::
          splitOnChar '.' ((padDigs e (natDigs (a % 10 ^ e))).map digitChar) :=
      splitOnChar_append '.' _ _ (digitChars_ne_dot _)
    have hsplitf : splitOnChar '.' ((padDigs e (natDigs (a % 10 ^ e))).map digitChar) =
        [(padDigs e (natDigs (a % 10 ^ e))).map digitChar] := by
      refine splitOnChar_not_mem '.' _ ?_
      intro c hc
      obtain ⟨d, hd, rfl⟩ := List.mem_map.mp hc
      exact (digitChar_props d (hpadlt d hd)).2.2.2.2.1
    have hfv : digitsVal ((padDigs e (natDigs (a % 10 ^ e))).map digitChar) =
        some (a % 10 ^ e) := by
      rw [digitsVal_map_digitChar _ (padDigs_ne_nil e _ (natDigs_ne_nil _)) hpadlt,
        digsVal_padDigs, natDigs_val]
    have hlenfrac : ((padDigs e (natDigs (a % 10 ^ e))).map digitChar).length = e := by
      rw [List.length_map, padDigs_length]
      have := natDigs_length_le (a % 10 ^ e) e he1 hfrac_lt
      omega
    rw [parseUnsignedQ, hsplit, hsplitf]
    simp only [digitsVal_natDigs, hfv, hlenfrac, Option.some.injEq]
    have h10 : ((10 : ℚ) ^ e) ≠ 0 := by positivity
    rw [eq_div_iff h10, add_mul, div_mul_cancel₀ _ h10]
    have hdm : (a / 10 ^ e) * 10 ^ e + a % 10 ^ e = a := by
      rw [Nat.mul_comm]
      exact Nat.div_add_mod a (10 ^ e)
    have hcast : ((a / 10 ^ e : ℕ) : ℚ) * 10 ^ e + ((a % 10 ^ e : ℕ) : ℚ) = (a : ℚ) := by
      exact_mod_cast congrArg (fun x : ℕ => (x : ℚ)) hdm
    push_cast at hcast ⊢
    linarith

theorem unsignedDecChars_head (a e : ℕ) :
    ∃ d rest, unsignedDecChars a e = digitChar d :: rest ∧ d < 10 := by
  rw [unsignedDecChars]
  by_cases he : e = 0
  · rw [if_pos he]
    rcases hn : natDigs a with _ | ⟨d, t⟩
    · exact absurd hn (natDigs_ne_nil a)
    · exact ⟨d, t.map digitChar ++ ['.', '0'], rfl,
        natDigs_lt a d (hn ▸ List.mem_cons_self d t)⟩
  · rw [if_neg he]
    rcases hn : natDigs (a / 10 ^ e) with _ | ⟨d, t⟩
    · exact absurd hn (natDigs_ne_nil _)
    · exact ⟨d, t.map digitChar ++ '.' :: (padDigs e (natDigs (a % 10 ^ e))).map digitChar,
        rfl, natDigs_lt _ d (hn ▸ List.mem_cons_self d t)⟩

theorem parseFloatChars_unsigned (a e : ℕ) :
    parseFloatChars (unsignedDecChars a e) = some ((a : ℚ) / 10 ^ e) := by
  obtain ⟨d, rest, heq, hd⟩ := unsignedDecChars_head a e
  rw [heq, parseFloatChars, if_neg (digitChar_props d hd).2.2.2.2.2.1, ← heq,
    parseUnsignedQ_format]

theorem parseFloat_amountChars (q : ℚ) (h : ∃ a b : ℕ, q.den = 2 ^ a * 5 ^ b) :
    parseFloatChars (amountChars q) = some q := by
  have hdvd := den_dvd_ten_pow q h
  have hshape : amountChars q = (if q.num < 0 then ['-'] else []) ++
      unsignedDecChars
        ((q.num * (10 : ℤ) ^ (max (multOf 2 q.den) (multOf 5 q.den)) / (q.den : ℤ)).natAbs)
        (max (multOf 2 q.den) (multOf 5 q.den)) := rfl
  rw [hshape]
  set e := max (multOf 2 q.den) (multOf 5 q.den) with he
  set m : ℤ := q.num * (10 : ℤ) ^ e / (q.den : ℤ) with hmdef
  have hden : (0 : ℤ) < (q.den : ℤ) := by exact_mod_cast q.pos
  have hden0 : ((q.den : ℕ) : ℚ) ≠ 0 := Nat.cast_ne_zero.mpr q.den_nz
  have hdvdZ : (q.den : ℤ) ∣ q.num * (10 : ℤ) ^ e := by
    refine Dvd.dvd.mul_left ?_ q.num
    have h2 := Int.natCast_dvd_natCast.mpr hdvd
    push_cast at h2
    exact h2
  have hm : m * (q.den : ℤ) = q.num * (10 : ℤ) ^ e := by
    rw [hmdef]
    exact Int.ediv_mul_cancel hdvdZ
  have hcast : (m : ℚ) * ((q.den : ℕ) : ℚ) = ((q.num : ℤ) : ℚ) * (10 : ℚ) ^ e := by
    exact_mod_cast hm
  have hqden : q * ((q.den : ℕ) : ℚ) = ((q.num : ℤ) : ℚ) := by
    have hnd := Rat.num_div_den q
    calc q * ((q.den : ℕ) : ℚ)
        = (((q.num : ℤ) : ℚ) / ((q.den : ℕ) : ℚ)) * ((q.den : ℕ) : ℚ) := by
          rw [hnd]
      _ = ((q.num : ℤ) : ℚ) := div_mul_cancel₀ _ hden0
  have hq : (m : ℚ) = q * 10 ^ e := by
    have h3 : (m : ℚ) * ((q.den : ℕ) : ℚ) = (q * 10 ^ e) * ((q.den : ℕ) : ℚ) := by
      rw [hcast, ← hqden]
      ring
    exact mul_right_cancel₀ hden0 h3
  have h10 : (0 : ℚ) < 10 ^ e := by positivity
  have hfin : (m : ℚ) / 10 ^ e = q := by
    rw [hq]
    field_simp
  by_cases hneg : q.num < 0
  · rw [if_pos hneg, List.singleton_append, parseFloatChars, if_pos rfl,
      parseUnsignedQ_format]
    have hmle : m ≤ 0 := by
      by_contra hc
      push_neg at hc
      have h1 : (0 : ℤ) < m * (q.den : ℤ) := mul_pos hc hden
      have h2 : q.num * (10 : ℤ) ^ e < 0 :=
        mul_neg_of_neg_of_pos hneg (pow_pos (by omega) e)
      omega
    have habs : ((m.natAbs : ℕ) : ℚ) = -(m : ℚ) := by
      rw [← Int.cast_natCast m.natAbs, Int.ofNat_natAbs_of_nonpos hmle, Int.cast_neg]
    simp only [Option.map_some']
    rw [habs]
    congr 1
    rw [neg_div, neg_neg, hfin]
  · rw [if_neg hneg, List.nil_append, parseFloatChars_unsigned]
    push_neg at hneg
    have hmge : 0 ≤ m := by
      by_contra hc
      push_neg at hc
      have h1 : m * (q.den : ℤ) < 0 := mul_neg_of_neg_of_pos hc hden
      have h2 : 0 ≤ q.num * (10 : ℤ) ^ e :=
        mul_nonneg hneg (le_of_lt (pow_pos (by omega) e))
      omega
    have habs : ((m.natAbs : ℕ) : ℚ) = (m : ℚ) := by
      rw [← Int.cast_natCast m.natAbs, Int.natAbs_of_nonneg hmge]
    rw [habs, hfin]

/-! CSV assembly lemmas. -/

theorem unsignedDecChars_safe (a e : ℕ) :
    ∀ c ∈ unsignedDecChars a e, c ≠ ',' ∧ c ≠ '\n' ∧ c ≠ '"' ∧ c ≠ '\r' := by
  intro c hc
  rw [unsignedDecChars] at hc
  by_cases he : e = 0
  · rw [if_pos he] at hc
    rcases List.mem_append.mp hc with h1 | h2
    · obtain ⟨d, hd, rfl⟩ := List.mem_map.mp h1
      have hp := digitChar_props d (natDigs_lt a d hd)
      exact ⟨hp.2.2.1, hp.2.2.2.1, hp.2.2.2.2.2.2.1, hp.2.2.2.2.2.2.2⟩
    · simp only [List.mem_cons, List.mem_singleton] at h2
      rcases h2 with rfl | h2
      · exact ⟨by decide, by decide, by decide, by decide⟩
      · simp at h2
        subst h2
        exact ⟨by decide, by decide, by decide, by decide⟩
  · rw [if_neg he] at hc
    rcases List.mem_append.mp hc with h1 | h2
    · obtain ⟨d, hd, rfl⟩ := List.mem_map.mp h1
      have hp := digitChar_props d (natDigs_lt _ d hd)
      exact ⟨hp.2.2.1, hp.2.2.2.1, hp.2.2.2.2.2.2.1, hp.2.2.2.2.2.2.2⟩
    · rcases List.mem_cons.mp h2 with rfl | h3
      · exact ⟨by decide, by decide, by decide, by decide⟩
      · obtain ⟨d, hd, rfl⟩ := List.mem_map.mp h3
        have hp := digitChar_props d (padDigs_lt e _ (natDigs_lt _) d hd)
        exact ⟨hp.2.2.1, hp.2.2.2.1, hp.2.2.2.2.2.2.1, hp.2.2.2.2.2.2.2⟩

theorem amountChars_safe (q : ℚ) :
    ∀ c ∈ amountChars q, c ≠ ',' ∧ c ≠ '\n' ∧ c ≠ '"' ∧ c ≠ '\r' := by
  intro c hc
  have hshape : amountChars q = (if q.num < 0 then ['-'] else []) ++
      unsignedDecChars
        ((q.num * (10 : ℤ) ^ (max (multOf 2 q.den) (multOf 5 q.den)) / (q.den : ℤ)).natAbs)
        (max (multOf 2 q.den) (multOf 5 q.den)) := rfl
  rw [hshape] at hc
  rcases List.mem_append.mp hc with h1 | h2
  · by_cases hneg : q.num < 0
    · rw [if_pos hneg] at h1
      simp only [List.mem_singleton] at h1
      subst h1
      exact ⟨by decide, by decide, by decide, by decide⟩
    · rw [if_neg hneg] at h1
      simp at h1
  · exact unsignedDecChars_safe _ _ c h2

theorem needsQuote_amountChars (q : ℚ) : needsQuote (amountChars q) = false := by
  rw [needsQuote, List.any_eq_false]
  intro c hc
  have h := amountChars_safe q c hc
  simp [h.1, h.2.1, h.2.2.1, h.2.2.2]

theorem encodeField_amountChars (q : ℚ) : encodeField (amountChars q) = amountChars q := by
  rw [encodeField, needsQuote_amountChars]
  rfl

theorem escapeQuotes_mem (l : List Char) : ∀ c ∈ escapeQuotes l, c = '"' ∨ c ∈ l := by
  induction l with
  | nil => simp [escapeQuotes]
  | cons x t ih =>
    intro c hc
    rw [escapeQuotes] at hc
    by_cases hx : x = '"'
    · rw [if_pos hx] at hc
      rcases List.mem_cons.mp hc with rfl | hc2
      · exact Or.inl rfl
      · rcases List.mem_cons.mp hc2 with rfl | hc3
        · exact Or.inl rfl
        · rcases ih c hc3 with h | h
          · exact Or.inl h
          · exact Or.inr (List.mem_cons_of_mem x h)
    · rw [if_neg hx] at hc
      rcases List.mem_cons.mp hc with rfl | hc2
      · exact Or.inr (List.mem_cons_self c t)
      · rcases ih c hc2 with h | h
        · exact Or.inl h
        · exact Or.inr (List.mem_cons_of_mem x h)

theorem encodeField_mem (l : List Char) : ∀ c ∈ encodeField l, c = '"' ∨ c ∈ l := by
  intro c hc
  rw [encodeField] at hc
  by_cases hq : needsQuote l = true
  · rw [if_pos hq] at hc
    rcases List.mem_cons.mp hc with rfl | hc2
    · exact Or.inl rfl
    · rcases List.mem_append.mp hc2 with h | h
      · exact escapeQuotes_mem l c h
      · simp only [List.mem_singleton] at h
        exact Or.inl h
  · rw [if_neg hq] at hc
    exact Or.inr hc

/-! Step equations for the CSV tokenizer. -/

theorem csvScan_comma (field : List Char) (row : List (List Char)) (t : List Char) :
    csvScan false field row (',' :: t) = csvScan false [] (field.reverse :: row) t := by
  conv_lhs => rw [csvScan.eq_def]
  simp

theorem csvScan_newline (field : List Char) (row : List (List Char)) (t : List Char) :
    csvScan false field row ('\n' :: t) =
      (field.reverse :: row).reverse :: csvScan false [] [] t := by
  conv_lhs => rw [csvScan.eq_def]
  simp

theorem csvScan_open_quote (field : List Char) (row : List (List Char)) (t : List Char) :
    csvScan false field row ('"' :: t) = csvScan true field row t := by
  conv_lhs => rw [csvScan.eq_def]
  simp

theorem csvScan_other (c : Char) (hc1 : c ≠ ',') (hc2 : c ≠ '\n') (hc3 : c ≠ '"')
    (field : List Char) (row : List (List Char)) (t : List Char) :
    csvScan false field row (c :: t) = csvScan false (c :: field) row t := by
  conv_lhs => rw [csvScan.eq_def]
  simp [hc1, hc2, hc3]

theorem csvScan_quoted_char (c : Char) (hc : c ≠ '"')
    (field : List Char) (row : List (List Char)) (t : List Char) :
    csvScan true field row (c :: t) = csvScan true (c :: field) row t := by
  conv_lhs => rw [csvScan.eq_def]
  simp [hc]

theorem csvScan_quoted_pair (field : List Char) (row : List (List Char)) (t : List Char) :
    csvScan true field row ('"' :: '"' :: t) = csvScan true ('"' :: field) row t := by
  conv_lhs => rw [csvScan.eq_def]
  simp

theorem csvScan_quote_close (field : List Char) (row : List (List Char)) (t : List Char)
    (h : t = [] ∨ ∃ c2 t2, t = c2 :: t2 ∧ c2 ≠ '"') :
    csvScan true field row ('"' :: t) = csvScan false field row t := by
  rcases h with rfl | ⟨c2, t2, rfl, hc2⟩
  · conv_lhs => rw [csvScan.eq_def]
    simp
  · conv_lhs => rw [csvScan.eq_def]
    simp [hc2]

theorem csvScan_consume (f : List Char) (hf : ∀ c ∈ f, c ≠ ',' ∧ c ≠ '"' ∧ c ≠ '\n')
    (field : List Char) (row : List (List Char)) (t : List Char) :
    csvScan false field row (f ++ t) = csvScan false (f.reverse ++ field) row t := by
  induction f generalizing field with
  | nil => simp
  | cons c f' ih =>
    have hc := hf c (List.mem_cons_self c f')
    rw [List.cons_append, csvScan_other c hc.1 hc.2.2 hc.2.1,
      ih (fun x hx => hf x (List.mem_cons_of_mem c hx)) (c :: field)]
    simp

theorem csvScan_consume_quoted (f : List Char) (field : List Char)
    (row : List (List Char)) (t : List Char) :
    csvScan true field row (escapeQuotes f ++ t) = csvScan true (f.reverse ++ field) row t := by
  induction f generalizing field with
  | nil => simp [escapeQuotes]
  | cons c f' ih =>
    rw [escapeQuotes]
    by_cases hc : c = '"'
    · subst hc
      rw [if_pos rfl, List.cons_append, List.cons_append, csvScan_quoted_pair,
        ih ('"' :: field)]
      simp
    · rw [if_neg hc, List.cons_append, csvScan_quoted_char c hc, ih (c :: field)]
      simp

theorem csvScan_encodeField (f : List Char) (field : List Char)
    (row : List (List Char)) (t : List Char)
    (ht : (∃ t2, t = ',' :: t2) ∨ (∃ t2, t = '\n' :: t2)) :
    csvScan false field row (encodeField f ++ t) = csvScan false (f.reverse ++ field) row t := by
  by_cases hq : needsQuote f = true
  · rw [encodeField, if_pos hq]
    simp only [List.cons_append, List.append_assoc, List.singleton_append, List.nil_append]
    rw [csvScan_open_quote, csvScan_consume_quoted f field row ('"' :: t),
      csvScan_quote_close]
    rcases ht with ⟨t2, rfl⟩ | ⟨t2, rfl⟩
    · exact Or.inr ⟨',', t2, rfl, by decide⟩
    · exact Or.inr ⟨'\n', t2, rfl, by decide⟩
  · rw [encodeField, if_neg hq]
    refine csvScan_consume f ?_ field row t
    intro c hc
    have hq2 : needsQuote f = false := by simpa using hq
    rw [needsQuote, List.any_eq_false] at hq2
    have h3 := hq2 c hc
    simp only [decide_eq_true_eq] at h3
    push_neg at h3
    exact ⟨h3.1, h3.2.1, h3.2.2.1⟩

theorem csvScan_record (d c ds am : List Char) (t : List Char) :
    csvScan false [] [] (encodeField d ++ ',' ::
      (encodeField c ++ ',' :: (encodeField ds ++ ',' :: (encodeField am ++ '\n' :: t)))) =
      [d, c, ds, am] :: csvScan false [] [] t := by
  rw [csvScan_encodeField d [] [] _ (Or.inl ⟨_, rfl⟩), csvScan_comma,
    csvScan_encodeField c [] _ _ (Or.inl ⟨_, rfl⟩), csvScan_comma,
    csvScan_encodeField ds [] _ _ (Or.inl ⟨_, rfl⟩), csvScan_comma,
    csvScan_encodeField am [] _ _ (Or.inr ⟨_, rfl⟩), csvScan_newline]
  simp

theorem csvLine_data (r : Rec) :
    (csvLine r).data = encodeField r.date.data ++ ',' :: (encodeField r.category.data ++
      ',' :: (encodeField r.description.data ++ ',' :: encodeField (amountChars r.amount))) := by
  show (⟨encodeField r.date.data⟩ ++ "," ++ ⟨encodeField r.category.data⟩ ++ "," ++
      ⟨encodeField r.description.data⟩ ++ "," ++
      ⟨encodeField (amountChars r.amount)⟩ : String).data = _
  simp only [String.data_append, List.append_assoc]
  rfl

theorem csvScan_csvBody (L : List Rec) :
    csvScan false [] [] (csvBody L).data =
      (L.map fun r => [r.date.data, r.category.data, r.description.data,
        amountChars r.amount]) ++ [[[]]] := by
  induction L with
  | nil =>
    show csvScan false [] [] (("" : String).data) = _
    rw [show ("" : String).data = [] from rfl]
    conv_lhs => rw [csvScan.eq_def]
    simp
  | cons r t ih =>
    show csvScan false [] [] ((csvLine r ++ "\n" ++ csvBody t)).data = _
    simp only [String.data_append, List.append_assoc, List.singleton_append]
    rw [csvLine_data]
    simp only [List.append_assoc, List.cons_append]
    rw [csvScan_record, ih, List.map_cons, List.cons_append]

theorem csvHeader_fields :
    csvHeader.data = encodeField "Date".data ++ ',' :: (encodeField "Category".data ++
      ',' :: (encodeField "Description".data ++ ',' :: encodeField "Amount".data)) := by
  decide

theorem csvScan_export (L : List Rec) :
    csvScan false [] [] (export_csv_bytes L).data =
      ["Date".data, "Category".data, "Description".data, "Amount".data] ::
        ((L.map fun r => [r.date.data, r.category.data, r.description.data,
          amountChars r.amount]) ++ [[[]]]) := by
  show csvScan false [] [] ((csvHeader ++ "\n" ++ csvBody L)).data = _
  simp only [String.data_append, List.append_assoc, List.singleton_append]
  rw [csvHeader_fields]
  simp only [List.append_assoc, List.cons_append]
  rw [csvScan_record, csvScan_csvBody]

theorem csvRows_export (L : List Rec) :
    csvRows (export_csv_bytes L) =
      ["Date".data, "Category".data, "Description".data, "Amount".data] ::
        L.map (fun r => [r.date.data, r.category.data, r.description.data,
          amountChars r.amount]) := by
  rw [csvRows, csvScan_export, List.filter_cons_of_pos (by decide), List.filter_append]
  have h1 : (L.map fun r => [r.date.data, r.category.data, r.description.data,
      amountChars r.amount]).filter (fun row => row ≠ [[]]) =
      L.map fun r => [r.date.data, r.category.data, r.description.data,
        amountChars r.amount] := by
    rw [List.filter_eq_self]
    intro a ha
    obtain ⟨r, _, rfl⟩ := List.mem_map.mp ha
    simp
  have h2 : ([[[]]] : List (List (List Char))).filter (fun row => row ≠ [[]]) = [] := by
    decide
  rw [h1, h2, List.append_nil]

theorem readCell_eq (s : String) (h : s ∉ naStrings) : readCell s.data = some s := by
  show (if (⟨s.data⟩ : String) ∈ naStrings then none else some (⟨s.data⟩ : String)) = some s
  have hmk : (⟨s.data⟩ : String) = s := rfl
  rw [hmk, if_neg h]

theorem parseCSVrow_rowOf (r : Rec) (h1 : r.date ∉ naStrings) (h2 : r.category ∉ naStrings)
    (h3 : r.description ∉ naStrings) (ha : ∃ a b : ℕ, r.amount.den = 2 ^ a * 5 ^ b) :
    parseCSVrow [r.date.data, r.category.data, r.description.data, amountChars r.amount] =
      some (asRead r) := by
  rw [parseCSVrow]
  simp only [readCell_eq r.date h1, readCell_eq r.category h2, readCell_eq r.description h3,
    parseFloat_amountChars r.amount ha, Option.getD_some]
  rfl

theorem filterMap_parse_rows (L : List Rec)
    (h : ∀ r ∈ L, parseCSVrow [r.date.data, r.category.data, r.description.data,
      amountChars r.amount] = some (asRead r)) :
    (L.map fun r => [r.date.data, r.category.data, r.description.data,
      amountChars r.amount]).filterMap parseCSVrow = L.map asRead := by
  induction L with
  | nil => rfl
  | cons r t ih =>
    rw [List.map_cons, List.filterMap_cons, h r (List.mem_cons_self r t), List.map_cons,
      ih (fun x hx => h x (List.mem_cons_of_mem r hx))]

theorem parseCSV_export (L : List Rec)
    (h : ∀ r ∈ L, r.date ∉ naStrings ∧ r.category ∉ naStrings ∧ r.description ∉ naStrings ∧
      ∃ a b : ℕ, r.amount.den = 2 ^ a * 5 ^ b) :
    parseCSV (export_csv_bytes L) = L.map asRead := by
  rw [parseCSV, csvRows_export]
  exact filterMap_parse_rows L (fun r hr =>
    parseCSVrow_rowOf r (h r hr).1 (h r hr).2.1 (h r hr).2.2.1 (h r hr).2.2.2)

/-- C6 (amended): exporting a ledger produces the header record plus one
record per ledger row, each cell minimally quoted exactly as `to_csv` does
(fields containing commas, quotes or newlines round-trip through the
quoting), with every amount written in full `repr` precision — `to_csv` is
called with no `float_format`, so nothing is rounded to 2 decimals — and
re-parsing the payload with the `read_csv` semantics reproduces exactly the
same sequence of records, every string cell read back verbatim, provided no
string field spells one of `read_csv`'s NA sentinels (such a cell — in
particular an empty one — reads back as missing/NaN instead of a string)
and every amount is a finite decimal. -/
theorem export_csv_roundtrip (L : List Rec)
    (h : ∀ r ∈ L, r.date ∉ naStrings ∧ r.category ∉ naStrings ∧ r.description ∉ naStrings ∧
      ∃ a b : ℕ, r.amount.den = 2 ^ a * 5 ^ b) :
    parseCSV (export_csv_bytes L) = L.map asRead ∧
    (csvRows (export_csv_bytes L)).head? =
      some ["Date".data, "Category".data, "Description".data, "Amount".data] ∧
    (csvRows (export_csv_bytes L)).length = L.length + 1 := by
  refine ⟨parseCSV_export L h, ?_, ?_⟩
  · rw [csvRows_export]
    rfl
  · rw [csvRows_export]
    simp

/-- Witness for C6 on a two-record ledger whose second description
contains a comma and an embedded quote, exercising the minimal quoting. -/
theorem export_csv_roundtrip_witness :
    parseCSV (export_csv_bytes
      [⟨"2025-01-01 00:00:00", "Food", "lunch", 10⟩,
       ⟨"2025-01-02 00:00:00", "Food", "a, \"big\" lunch", 10⟩]) =
      [⟨some "2025-01-01 00:00:00", some "Food", some "lunch", 10⟩,
       ⟨some "2025-01-02 00:00:00", some "Food", some "a, \"big\" lunch", 10⟩] ∧
    (csvRows (export_csv_bytes
      [⟨"2025-01-01 00:00:00", "Food", "lunch", 10⟩,
       ⟨"2025-01-02 00:00:00", "Food", "a, \"big\" lunch", 10⟩])).head? =
      some ["Date".data, "Category".data, "Description".data, "Amount".data] ∧
    (csvRows (export_csv_bytes
      [⟨"2025-01-01 00:00:00", "Food", "lunch", 10⟩,
       ⟨"2025-01-02 00:00:00", "Food", "a, \"big\" lunch", 10⟩])).length = 3 :=
  export_csv_roundtrip
    [⟨"2025-01-01 00:00:00", "Food", "lunch", 10⟩,
     ⟨"2025-01-02 00:00:00", "Food", "a, \"big\" lunch", 10⟩]
    (by
      intro r hr
      simp only [List.mem_cons, List.mem_singleton] at hr
      rcases hr with rfl | rfl | h
      · exact ⟨by decide, by decide, by decide, 0, 0, by norm_num⟩
      · exact ⟨by decide, by decide, by decide, 0, 0, by norm_num⟩
      · exact absurd h (List.not_mem_nil r))

/-- Counterexample for C6 as stated: the amount cell `0.125` is exported in
full precision, so re-parsing returns exactly 1/8, which equals `k/100` for
no integer `k` — the export is not formatted to 2 decimals and the round
trip is exact, not up-to-rounding. -/
theorem export_csv_not_two_decimals_cex :
    (parseCSV (export_csv_bytes [⟨"2025-01-01 00:00:00", "Food", "x", 1/8⟩])).map
      ReadRow.amount = [1/8] ∧
    ¬ ∃ k : ℤ, ((1 : ℚ)/8) = (k : ℚ) / 100 := by
  have hrt := parseCSV_export [⟨"2025-01-01 00:00:00", "Food", "x", 1/8⟩]
    (by
      intro r hr
      simp only [List.mem_singleton] at hr
      subst hr
      exact ⟨by decide, by decide, by decide, 3, 0, by norm_num⟩)
  refine ⟨by rw [hrt]; rfl, ?_⟩
  rintro ⟨k, hk⟩
  rw [div_eq_div_iff (by norm_num) (by norm_num)] at hk
  have hk2 : (100 : ℤ) = k * 8 := by exact_mod_cast hk
  omega

end ExpenseTracker
